import Mathlib

/-!
Shallow embedding of the x86 assembly testing framework
(`x86_asm_test.h` / `x86_asm_test.cpp`), together with proofs of the
behavioural properties stated in the specification.

The pure matching engine (`ExpectedOutput::matches`,
`ExpectedOutput::get_mismatch_description`) is translated directly.
The process-execution engine (`AsmTestRunner::execute_process`,
`AsmTestRunner::execute_with_strace`) is a fork/pipe/select loop; it is
embedded as a deterministic function over an explicit environment that
records the outcome of each `select` call, the child terminal status
reported by `waitpid`, and the success of resource acquisition.
-/

namespace x86_asm_test

/-- Assembly dialect tag (`AsmSyntax` in the header): display-only metadata. -/
inductive AsmDialect where
  | Intel
  | ATT

deriving DecidableEq, Repr

/-- `struct ExecutionResult`: snapshot of one run's outcome.
`execution_time` is in milliseconds. -/
structure ExecutionResult where
  exit_code : Int := 0
  stdout_output : String := ""
  stderr_output : String := ""
  execution_time : Nat := 0
  timed_out : Bool := false

deriving DecidableEq, Repr

/-- `ExecutionResult::succeeded()`: `exit_code == 0 && !timed_out`. -/
def ExecutionResult.succeeded (r : ExecutionResult) : Bool :=
  r.exit_code == 0 && !r.timed_out

/-- `ExecutionResult::has_output()`: `!stdout_output.empty()`. -/
def ExecutionResult.has_output (r : ExecutionResult) : Bool :=
  !(r.stdout_output == "")

/-- `struct TestConfig` with the header's default member values. -/
structure TestConfig where
  timeout : Nat := 5000
  capture_stderr : Bool := true
  use_strace : Bool := false
  strace_options : List String := ["-e", "trace=write,read,exit_group"]
  working_directory : String := "."

deriving DecidableEq, Repr

/-- `class ExpectedOutput`: declarative match criteria.  A
default-constructed value has every optional absent and both lists empty. -/
structure ExpectedOutput where
  exact_stdout : Option String := none
  exact_stderr : Option String := none
  stdout_contains : List String := []
  stderr_contains : List String := []
  expected_exit_code : Option Int := none

deriving DecidableEq, Repr

/-- Does `pat` occur at the very start of `hay`?  (Character-level helper
for `std::string::find`.) -/
def charsStartWith : List Char → List Char → Bool
  | [], _ => true
  | _ :: _, [] => false
  | a :: as, b :: bs => a == b && charsStartWith as bs

/-- `hay.find(pat) != npos` of `std::string::find`: `pat` occurs as a
contiguous substring of `hay` (the empty pattern is found at position 0). -/
def charsFind : List Char → List Char → Bool
  | pat, [] => charsStartWith pat []
  | pat, b :: bs => charsStartWith pat (b :: bs) || charsFind pat bs

/-- String-level wrapper: `s.find(pat) != std::string::npos`. -/
def strFindHit (pat s : String) : Bool :=
  charsFind pat.data s.data

/-- `ExpectedOutput::matches`: the early-return chain of the source,
written as the equivalent conjunction (each early `return false` is one
failed conjunct). -/
def ExpectedOutput.matches (e : ExpectedOutput) (r : ExecutionResult) : Bool :=
  (match e.expected_exit_code with
   | some c => r.exit_code == c
   | none => true) &&
  (match e.exact_stdout with
   | some s => r.stdout_output == s
   | none => true) &&
  (match e.exact_stderr with
   | some s => r.stderr_output == s
   | none => true) &&
  e.stdout_contains.all (fun pattern => strFindHit pattern r.stdout_output) &&
  e.stderr_contains.all (fun pattern => strFindHit pattern r.stderr_output)

/-! ### The diagnostic generator `get_mismatch_description` -/

/-- A value wrapped in single quotes, as the format strings of the source
print expected and actual values. -/
def quoted (s : String) : String := "\x27" ++ s ++ "\x27"

/-- The line `Exit code mismatch: expected {}, got {}\n`. -/
def fmtExitMismatch (expected got : Int) : String :=
  "Exit code mismatch: expected " ++ toString expected ++ ", got " ++
    toString got ++ "\n"

/-- The block `Stdout mismatch:\nExpected: {}\nActual: {}\n`. -/
def fmtStdoutMismatch (expected actual : String) : String :=
  "Stdout mismatch:\nExpected: " ++ quoted expected ++ "\nActual: " ++
    quoted actual ++ "\n"

/-- The block `Stderr mismatch:\nExpected: {}\nActual: {}\n`. -/
def fmtStderrMismatch (expected actual : String) : String :=
  "Stderr mismatch:\nExpected: " ++ quoted expected ++ "\nActual: " ++
    quoted actual ++ "\n"

/-- The block `Stdout missing pattern: {}\nActual stdout: {}\n`. -/
def fmtStdoutMissing (pattern actual : String) : String :=
  "Stdout missing pattern: " ++ quoted pattern ++ "\nActual stdout: " ++
    quoted actual ++ "\n"

/-- The block `Stderr missing pattern: {}\nActual stderr: {}\n`. -/
def fmtStderrMissing (pattern actual : String) : String :=
  "Stderr missing pattern: " ++ quoted pattern ++ "\nActual stderr: " ++
    quoted actual ++ "\n"

/-- In-order concatenation of a list of strings, as the `ostringstream`
accumulates the loop-appended fragments. -/
def concatAll : List String → String
  | [] => ""
  | s :: rest => s ++ concatAll rest

/-- `ExpectedOutput::get_mismatch_description`: every specified-and-failing
criterion appends its fragment; the checks are those of `matches`, evaluated
independently with no early exit. -/
def ExpectedOutput.get_mismatch_description (e : ExpectedOutput)
    (r : ExecutionResult) : String :=
  (match e.expected_exit_code with
   | some c => if r.exit_code == c then "" else fmtExitMismatch c r.exit_code
   | none => "") ++
  (match e.exact_stdout with
   | some s => if r.stdout_output == s then "" else fmtStdoutMismatch s r.stdout_output
   | none => "") ++
  (match e.exact_stderr with
   | some s => if r.stderr_output == s then "" else fmtStderrMismatch s r.stderr_output
   | none => "") ++
  concatAll (e.stdout_contains.map fun pattern =>
    if strFindHit pattern r.stdout_output then ""
    else fmtStdoutMissing pattern r.stdout_output) ++
  concatAll (e.stderr_contains.map fun pattern =>
    if strFindHit pattern r.stderr_output then ""
    else fmtStderrMissing pattern r.stderr_output)

/-- The number of specified criteria of `e` that fail against `r`
(the spec counts the exit-code check, each exact-output check, and each
required substring as one criterion). -/
def violatedCount (e : ExpectedOutput) (r : ExecutionResult) : Nat :=
  (match e.expected_exit_code with
   | some c => if r.exit_code == c then 0 else 1
   | none => 0) +
  (match e.exact_stdout with
   | some s => if r.stdout_output == s then 0 else 1
   | none => 0) +
  (match e.exact_stderr with
   | some s => if r.stderr_output == s then 0 else 1
   | none => 0) +
  (e.stdout_contains.filter fun p => !(strFindHit p r.stdout_output)).length +
  (e.stderr_contains.filter fun p => !(strFindHit p r.stderr_output)).length

/-- Number of newline characters of a string: each appended diagnostic
fragment terminates its lines with a newline, so this counts lines. -/
def newlineCount (s : String) : Nat := s.data.count (Char.ofNat 10)

/-- Specification-side reading of `matches`: every specified criterion holds,
an absent criterion constrains nothing. -/
def MatchesSpec (e : ExpectedOutput) (r : ExecutionResult) : Prop :=
  (∀ c, e.expected_exit_code = some c → r.exit_code = c) ∧
  (∀ s, e.exact_stdout = some s → r.stdout_output = s) ∧
  (∀ s, e.exact_stderr = some s → r.stderr_output = s) ∧
  (∀ p ∈ e.stdout_contains, p.data <:+: r.stdout_output.data) ∧
  (∀ p ∈ e.stderr_contains, p.data <:+: r.stderr_output.data)

/-! ### The process-execution engine

`execute_process` / `execute_with_strace` fork a child wired to three
pipes, feed stdin, then loop: build the fd set (stdout always while open,
stderr when monitored), call select(2) with a freshly built `timeval`
deadline, and either break (error), kill-and-break (expiry), or read the
flagged channels.  After the loop, waitpid(2) reports the terminal status,
decoded into `exit_code`.  The embedding drives this loop with an explicit
list of select outcomes supplied by the environment. -/

/-- Terminal status of the child as waitpid(2) reports it: a normal exit
carrying the value the child passed to `_exit` (the operating system keeps
its low 8 bits), or death by signal. -/
inductive ChildStatus where
  | exited (code : Nat)
  | signaled (sig : Nat)

deriving DecidableEq, Repr

/-- Signal number of SIGKILL, the one the runner sends on expiry. -/
def SIGKILL : Nat := 9

/-- Lines 262-266 / 416-420: `WIFEXITED` gives `WEXITSTATUS` (the exit
value as an 8-bit quantity), `WIFSIGNALED` gives `128 + WTERMSIG`. -/
def decode_status : ChildStatus → Int
  | .exited code => ((code % 256 : Nat) : Int)
  | .signaled sig => 128 + (sig : Int)

/-- One read(2) outcome on a readable pipe: a chunk of bytes, or
end-of-stream (`bytes_read <= 0`), which closes the channel. -/
inductive ReadOutcome where
  | data (chunk : String)
  | eof

deriving DecidableEq, Repr

/-- Outcome of one select(2) call, as the environment resolves it:
expiry with nothing readable, failure (-1), or readability with the read
result of each flagged channel.  `waited` is the wall-clock time in
milliseconds the call spent blocked. -/
inductive SelectEvent where
  | expired (waited : Nat)
  | failed (waited : Nat)
  | ready (waited : Nat) (outR : Option ReadOutcome) (errR : Option ReadOutcome)

deriving DecidableEq, Repr

/-- Wall-clock milliseconds a select outcome spent blocked. -/
def eventWait : SelectEvent → Nat
  | .expired w => w
  | .failed w => w
  | .ready w _ _ => w

/-- Mutable state of the read loop. `waited` accumulates time spent inside
select(2); `selects` counts its calls; `killed` records a SIGKILL sent by
the runner. -/
structure LoopState where
  stdout_open : Bool := true
  stderr_open : Bool := true
  out : String := ""
  err : String := ""
  timed_out : Bool := false
  killed : Bool := false
  waited : Nat := 0
  selects : Nat := 0

deriving DecidableEq, Repr

/-- The deadline the code hands to select(2) each iteration, in ms: it
builds `tv_sec = timeout/1000`, `tv_usec = (timeout%1000)*1000` from the
configured timeout alone (lines 218-219 and 378-379). -/
def selectDeadline (cfg : TestConfig) : Nat :=
  cfg.timeout / 1000 * 1000 + cfg.timeout % 1000 * 1000 / 1000

/-- A select outcome consistent with the deadline the code passes: expiry
means the whole deadline elapsed, any other outcome took at most it. -/
def validEvent (cfg : TestConfig) : SelectEvent → Bool
  | .expired w => w == selectDeadline cfg
  | .failed w => decide (w ≤ selectDeadline cfg)
  | .ready w _ _ => decide (w ≤ selectDeadline cfg)

/-- The two FD_ISSET read blocks of one loop iteration: stdout is read when
still open and flagged; stderr when still open, monitored (always in the
strace variant, only under `capture_stderr` in the plain one) and flagged.
A positive read appends the chunk, otherwise the channel closes. -/
def applyReads (straceMode : Bool) (cfg : TestConfig)
    (outR errR : Option ReadOutcome) (s : LoopState) : LoopState :=
  let s2 := if s.stdout_open then
      match outR with
      | some (.data chunk) => { s with out := s.out ++ chunk }
      | some .eof => { s with stdout_open := false }
      | none => s
    else s
  if s2.stderr_open && (straceMode || cfg.capture_stderr) then
    match errR with
    | some (.data chunk) => { s2 with err := s2.err ++ chunk }
    | some .eof => { s2 with stderr_open := false }
    | none => s2
  else s2

/-- The readiness-multiplexing read loop (lines 202-252 and 363-408).
`straceMode` selects the strace variant, which always monitors stderr and
also kills the child when select fails. -/
def runLoop (straceMode : Bool) (cfg : TestConfig) :
    List SelectEvent → LoopState → LoopState
  | [], s => s
  | ev :: rest, s =>
    if !(s.stdout_open || s.stderr_open) then s
    else if !(s.stdout_open ||
        (s.stderr_open && (straceMode || cfg.capture_stderr))) then s
    else
      let s1 : LoopState := { s with waited := s.waited + eventWait ev,
                                     selects := s.selects + 1 }
      match ev with
      | .expired _ => { s1 with timed_out := true, killed := true }
      | .failed _ => if straceMode then { s1 with killed := true } else s1
      | .ready _ outR errR =>
        runLoop straceMode cfg rest (applyReads straceMode cfg outR errR s1)

/-- Status waitpid reports: death by the runner's SIGKILL when it killed
the child, otherwise the child's own terminal status. -/
def reapStatus (killed : Bool) (natural_status : ChildStatus) : ChildStatus :=
  if killed then .signaled SIGKILL else natural_status

/-- Per-call spawn failures: pipe(2) or fork(2) failing, each thrown as a
runtime error before any result exists. -/
inductive SpawnError where
  | pipeFailed
  | forkFailed

deriving DecidableEq, Repr

/-- Environment of one `execute` call: whether pipe(2) and fork(2) succeed,
whether a trace utility is resolvable on the search path (execvp), the
select/read outcomes the parent observes, the terminal status waitpid would
report had the runner not killed the child, and the measured wall time. -/
structure ExecEnv where
  pipe_ok : Bool := true
  fork_ok : Bool := true
  strace_on_path : Bool := true
  events : List SelectEvent := []
  natural_status : ChildStatus := .exited 0
  elapsed_ms : Nat := 0

deriving DecidableEq, Repr

/-- `class AsmTestRunner`: one validated executable path, a dialect tag and
a configuration. -/
structure AsmTestRunner where
  executable_path : String
  dialect : AsmDialect := .Intel
  config : TestConfig := {}

deriving DecidableEq, Repr

/-- How the child resolves the binary it executes: execv(2) with the stored
path as given, or execvp(3) searching the standard executable search path
for a bare name. -/
inductive SpawnMethod where
  | execByPath (file : String)
  | execBySearch (file : String)

deriving DecidableEq, Repr

/-- Line 178: the plain path executes the stored executable path directly. -/
def plain_spawn_method (runner : AsmTestRunner) : SpawnMethod :=
  .execByPath runner.executable_path

/-- Line 342: the traced path resolves `strace` via the search path. -/
def strace_spawn_method : SpawnMethod :=
  .execBySearch "strace"

/-- Lines 283-295: the traced command line, assembled by pushing the trace
utility name, then each configured option, then the executable path, and
finally inserting the caller's arguments at the end. -/
def build_strace_args (cfg : TestConfig) (path : String)
    (args : List String) : List String :=
  let s0 := ["strace"]
  let s1 := cfg.strace_options.foldl (fun acc option => acc ++ [option]) s0
  let s2 := s1 ++ [path]
  s2 ++ args

/-- Lines 254-274 / 410-425 after the loop: close the pipes, waitpid, and
package the result (decoded exit status, accumulated outputs, wall time,
timeout flag) together with whether the runner sent SIGKILL. -/
def finishRun (s : LoopState) (natural_status : ChildStatus)
    (elapsed_ms : Nat) : ExecutionResult × Bool :=
  ({ exit_code := decode_status (reapStatus s.killed natural_status),
     stdout_output := s.out,
     stderr_output := s.err,
     execution_time := elapsed_ms,
     timed_out := s.timed_out }, s.killed)

/-- `AsmTestRunner::execute_with_strace` (lines 277-429): spawn failures
raise, an unresolvable trace utility makes the child's execvp fail and
`_exit(127)` (lines 342-344), everything else runs the same read loop with
stderr always monitored, then decodes the reaped status. -/
def AsmTestRunner.execute_with_strace (runner : AsmTestRunner) (env : ExecEnv) :
    Except SpawnError (ExecutionResult × Bool) :=
  if !env.pipe_ok then .error .pipeFailed
  else if !env.fork_ok then .error .forkFailed
  else .ok (finishRun (runLoop true runner.config env.events {})
    (if env.strace_on_path then env.natural_status else .exited 127)
    env.elapsed_ms)

/-- `AsmTestRunner::execute_process` (lines 119-275): dispatch to the
strace variant when configured, otherwise spawn, run the plain read loop
and decode the reaped status.  The second component records whether the
runner sent SIGKILL. -/
def AsmTestRunner.execute_process (runner : AsmTestRunner) (env : ExecEnv) :
    Except SpawnError (ExecutionResult × Bool) :=
  if runner.config.use_strace then runner.execute_with_strace env
  else if !env.pipe_ok then .error .pipeFailed
  else if !env.fork_ok then .error .forkFailed
  else .ok (finishRun (runLoop false runner.config env.events {})
    env.natural_status env.elapsed_ms)

/-- The terminal status waitpid would report absent a runner kill, as each
variant determines it: the strace variant substitutes `_exit(127)` when the
trace utility is unresolvable. -/
def effective_status (runner : AsmTestRunner) (env : ExecEnv) : ChildStatus :=
  if runner.config.use_strace && !env.strace_on_path then .exited 127
  else env.natural_status

/-- Outcome of the visible file checks of the constructor. -/
structure FileStat where
  fileExists : Bool := true
  isRegularFile : Bool := true
  isExecutable : Bool := true

deriving DecidableEq, Repr

/-- `AsmTestRunner::AsmTestRunner` (lines 90-117): three fail-fast checks
against the file system, each raising a runtime error with the source's
message, then the runner is produced. -/
def AsmTestRunner.construct (path : String) (dialect : AsmDialect)
    (cfg : TestConfig) (st : FileStat) : Except String AsmTestRunner :=
  if !st.fileExists then .error ("Executable not found: " ++ path)
  else if !st.isRegularFile then .error ("Path is not a regular file: " ++ path)
  else if !st.isExecutable then .error ("File is not executable: " ++ path)
  else .ok { executable_path := path, dialect := dialect, config := cfg }

/-- Is an `Except` outcome the error case? -/
def exceptIsError {ε α : Type} : Except ε α → Bool
  | .error _ => true
  | .ok _ => false

deriving instance DecidableEq for Except

/-! ### Correctness of the substring search -/

theorem charsStartWith_iff (pat hay : List Char) :
    charsStartWith pat hay = true ↔ pat <+: hay := by
  induction pat generalizing hay with
  | nil => simp [charsStartWith, List.nil_prefix]
  | cons a as ih =>
    cases hay with
    | nil =>
      simp only [charsStartWith, Bool.false_eq_true, false_iff]
      intro h
      exact List.cons_ne_nil a as (List.prefix_nil.mp h)
    | cons b bs =>
      simp only [charsStartWith, Bool.and_eq_true, beq_iff_eq,
        List.cons_prefix_cons, ih]

theorem charsFind_iff (pat hay : List Char) :
    charsFind pat hay = true ↔ pat <:+: hay := by
  induction hay with
  | nil =>
    simp only [charsFind, charsStartWith_iff, List.prefix_nil, List.infix_nil]
  | cons b bs ih =>
    simp only [charsFind, Bool.or_eq_true, charsStartWith_iff, ih,
      List.infix_cons_iff]

theorem strFindHit_iff (pat s : String) :
    strFindHit pat s = true ↔ pat.data <:+: s.data := by
  exact charsFind_iff pat.data s.data

/-! ### Basic string-accounting lemmas -/

theorem newlineCount_append (a b : String) :
    newlineCount (a ++ b) = newlineCount a + newlineCount b := by
  simp [newlineCount, String.data_append, List.count_append]

theorem newlineCount_newline_end (s : String) :
    1 ≤ newlineCount (s ++ "\n") := by
  rw [newlineCount_append]
  have h : newlineCount "\n" = 1 := by decide
  omega

theorem append_newline_ne_empty (s : String) : s ++ "\n" ≠ "" := by
  intro h
  have hd : (s ++ "\n").data = [] := by rw [h]
  rw [String.data_append] at hd
  simp at hd

theorem string_eq_empty_iff_data (s : String) : s = "" ↔ s.data = [] := by
  constructor
  · intro h; rw [h]
  · intro h; cases s; simp_all

theorem mem_concatAll_infix (l : List String) (s : String) (hs : s ∈ l) :
    s.data <:+: (concatAll l).data := by
  induction l with
  | nil => cases hs
  | cons a rest ih =>
    rcases List.mem_cons.mp hs with h | h
    · subst h
      show s.data <:+: (s ++ concatAll rest).data
      rw [String.data_append]
      exact (List.prefix_append s.data (concatAll rest).data).isInfix
    · show s.data <:+: (a ++ concatAll rest).data
      rw [String.data_append]
      exact (ih h).trans (List.suffix_append a.data (concatAll rest).data).isInfix

theorem newlineCount_concatAll_ge (f : String → String) (l : List String)
    (hf : ∀ x ∈ l, f x ≠ "" → 1 ≤ newlineCount (f x)) :
    (l.filter fun x => !(f x == "")).length ≤ newlineCount (concatAll (l.map f)) := by
  induction l with
  | nil => simp [concatAll, newlineCount]
  | cons a rest ih =>
    have ha := hf a (List.mem_cons_self a rest)
    have hrest := ih fun x hx => hf x (List.mem_cons_of_mem a hx)
    show (List.filter _ (a :: rest)).length ≤
      newlineCount (f a ++ concatAll (rest.map f))
    rw [newlineCount_append, List.filter_cons]
    by_cases h : f a = ""
    · simp only [h, beq_self_eq_true, Bool.not_true, if_neg (by simp : ¬ (false = true))]
      omega
    · have h1 := ha h
      have : (!(f a == "")) = true := by simp [h]
      rw [if_pos this, List.length_cons]
      omega

theorem concatAll_eq_empty (l : List String) (h : ∀ x ∈ l, x = "") :
    concatAll l = "" := by
  induction l with
  | nil => rfl
  | cons a rest ih =>
    show a ++ concatAll rest = ""
    rw [h a (List.mem_cons_self a rest), ih fun x hx => h x (List.mem_cons_of_mem a hx)]
    rfl

theorem infix_data_append_left (x a b : String) (h : x.data <:+: b.data) :
    x.data <:+: (a ++ b).data := by
  rw [String.data_append]
  exact h.trans (List.suffix_append a.data b.data).isInfix

theorem infix_data_append_right (x a b : String) (h : x.data <:+: a.data) :
    x.data <:+: (a ++ b).data := by
  rw [String.data_append]
  exact h.trans (List.prefix_append a.data b.data).isInfix

/-! ### Where each failing criterion's fragment sits inside the description -/

theorem desc_infix_exit (e : ExpectedOutput) (r : ExecutionResult) (c : Int)
    (hc : e.expected_exit_code = some c) (hne : r.exit_code ≠ c) :
    (fmtExitMismatch c r.exit_code).data <:+: (e.get_mismatch_description r).data := by
  have hpart : (match e.expected_exit_code with
      | some c => if r.exit_code == c then "" else fmtExitMismatch c r.exit_code
      | none => "") = fmtExitMismatch c r.exit_code := by
    rw [hc]; simp [hne]
  unfold ExpectedOutput.get_mismatch_description
  rw [hpart]
  apply infix_data_append_right
  apply infix_data_append_right
  apply infix_data_append_right
  apply infix_data_append_right
  exact List.infix_refl _

theorem desc_infix_stdout (e : ExpectedOutput) (r : ExecutionResult) (s : String)
    (hs : e.exact_stdout = some s) (hne : r.stdout_output ≠ s) :
    (fmtStdoutMismatch s r.stdout_output).data <:+: (e.get_mismatch_description r).data := by
  have hpart : (match e.exact_stdout with
      | some s => if r.stdout_output == s then "" else fmtStdoutMismatch s r.stdout_output
      | none => "") = fmtStdoutMismatch s r.stdout_output := by
    rw [hs]; simp [hne]
  unfold ExpectedOutput.get_mismatch_description
  rw [hpart]
  apply infix_data_append_right
  apply infix_data_append_right
  apply infix_data_append_right
  apply infix_data_append_left
  exact List.infix_refl _

theorem desc_infix_stderr (e : ExpectedOutput) (r : ExecutionResult) (s : String)
    (hs : e.exact_stderr = some s) (hne : r.stderr_output ≠ s) :
    (fmtStderrMismatch s r.stderr_output).data <:+: (e.get_mismatch_description r).data := by
  have hpart : (match e.exact_stderr with
      | some s => if r.stderr_output == s then "" else fmtStderrMismatch s r.stderr_output
      | none => "") = fmtStderrMismatch s r.stderr_output := by
    rw [hs]; simp [hne]
  unfold ExpectedOutput.get_mismatch_description
  rw [hpart]
  apply infix_data_append_right
  apply infix_data_append_right
  apply infix_data_append_left
  exact List.infix_refl _

theorem desc_infix_out_missing (e : ExpectedOutput) (r : ExecutionResult) (p : String)
    (hp : p ∈ e.stdout_contains) (hmiss : strFindHit p r.stdout_output = false) :
    (fmtStdoutMissing p r.stdout_output).data <:+: (e.get_mismatch_description r).data := by
  unfold ExpectedOutput.get_mismatch_description
  apply infix_data_append_right
  apply infix_data_append_left
  have hmem := List.mem_map_of_mem
    (fun pattern => if strFindHit pattern r.stdout_output then ""
      else fmtStdoutMissing pattern r.stdout_output) hp
  have hinf := mem_concatAll_infix _ _ hmem
  simp only [hmiss, Bool.false_eq_true, if_false] at hinf
  exact hinf

theorem desc_infix_err_missing (e : ExpectedOutput) (r : ExecutionResult) (p : String)
    (hp : p ∈ e.stderr_contains) (hmiss : strFindHit p r.stderr_output = false) :
    (fmtStderrMissing p r.stderr_output).data <:+: (e.get_mismatch_description r).data := by
  unfold ExpectedOutput.get_mismatch_description
  apply infix_data_append_left
  have hmem := List.mem_map_of_mem
    (fun pattern => if strFindHit pattern r.stderr_output then ""
      else fmtStderrMissing pattern r.stderr_output) hp
  have hinf := mem_concatAll_infix _ _ hmem
  simp only [hmiss, Bool.false_eq_true, if_false] at hinf
  exact hinf

/-! ### Completeness accounting for the description -/

theorem one_le_newlineCount_fmtExit (c g : Int) :
    1 ≤ newlineCount (fmtExitMismatch c g) := by
  unfold fmtExitMismatch
  exact newlineCount_newline_end _

theorem one_le_newlineCount_fmtStdout (a b : String) :
    1 ≤ newlineCount (fmtStdoutMismatch a b) := by
  unfold fmtStdoutMismatch
  exact newlineCount_newline_end _

theorem one_le_newlineCount_fmtStderr (a b : String) :
    1 ≤ newlineCount (fmtStderrMismatch a b) := by
  unfold fmtStderrMismatch
  exact newlineCount_newline_end _

theorem one_le_newlineCount_fmtOutMissing (a b : String) :
    1 ≤ newlineCount (fmtStdoutMissing a b) := by
  unfold fmtStdoutMissing
  exact newlineCount_newline_end _

theorem one_le_newlineCount_fmtErrMissing (a b : String) :
    1 ≤ newlineCount (fmtStderrMissing a b) := by
  unfold fmtStderrMissing
  exact newlineCount_newline_end _

theorem fmtStdoutMissing_ne_empty (a b : String) : fmtStdoutMissing a b ≠ "" := by
  unfold fmtStdoutMissing
  exact append_newline_ne_empty _

theorem fmtStderrMissing_ne_empty (a b : String) : fmtStderrMissing a b ≠ "" := by
  unfold fmtStderrMissing
  exact append_newline_ne_empty _

theorem violatedCount_le_newlineCount (e : ExpectedOutput) (r : ExecutionResult) :
    violatedCount e r ≤ newlineCount (e.get_mismatch_description r) := by
  unfold violatedCount ExpectedOutput.get_mismatch_description
  rw [newlineCount_append, newlineCount_append, newlineCount_append,
    newlineCount_append]
  have h1 : (match e.expected_exit_code with
      | some c => if r.exit_code == c then 0 else 1
      | none => 0) ≤ newlineCount (match e.expected_exit_code with
      | some c => if r.exit_code == c then "" else fmtExitMismatch c r.exit_code
      | none => "") := by
    cases e.expected_exit_code with
    | none => exact Nat.zero_le _
    | some c =>
      by_cases hb : (r.exit_code == c) = true
      · simp [hb]
      · simp only [if_neg hb]
        exact one_le_newlineCount_fmtExit c r.exit_code
  have h2 : (match e.exact_stdout with
      | some s => if r.stdout_output == s then 0 else 1
      | none => 0) ≤ newlineCount (match e.exact_stdout with
      | some s => if r.stdout_output == s then "" else fmtStdoutMismatch s r.stdout_output
      | none => "") := by
    cases e.exact_stdout with
    | none => exact Nat.zero_le _
    | some s =>
      by_cases hb : (r.stdout_output == s) = true
      · simp [hb]
      · simp only [if_neg hb]
        exact one_le_newlineCount_fmtStdout s r.stdout_output
  have h3 : (match e.exact_stderr with
      | some s => if r.stderr_output == s then 0 else 1
      | none => 0) ≤ newlineCount (match e.exact_stderr with
      | some s => if r.stderr_output == s then "" else fmtStderrMismatch s r.stderr_output
      | none => "") := by
    cases e.exact_stderr with
    | none => exact Nat.zero_le _
    | some s =>
      by_cases hb : (r.stderr_output == s) = true
      · simp [hb]
      · simp only [if_neg hb]
        exact one_le_newlineCount_fmtStderr s r.stderr_output
  have h4 : (e.stdout_contains.filter fun p => !(strFindHit p r.stdout_output)).length ≤
      newlineCount (concatAll (e.stdout_contains.map fun pattern =>
        if strFindHit pattern r.stdout_output then ""
        else fmtStdoutMissing pattern r.stdout_output)) := by
    have hcong : e.stdout_contains.filter (fun p => !(strFindHit p r.stdout_output)) =
        e.stdout_contains.filter fun p =>
          !((if strFindHit p r.stdout_output then ""
             else fmtStdoutMissing p r.stdout_output) == "") := by
      apply List.filter_congr
      intro x _
      by_cases hb : strFindHit x r.stdout_output = true
      · simp [hb]
      · simp [hb, fmtStdoutMissing_ne_empty]
    rw [hcong]
    apply newlineCount_concatAll_ge
    intro x _ hx
    by_cases hb : strFindHit x r.stdout_output = true
    · rw [if_pos hb] at hx
      exact absurd rfl hx
    · rw [if_neg hb]
      exact one_le_newlineCount_fmtOutMissing x r.stdout_output
  have h5 : (e.stderr_contains.filter fun p => !(strFindHit p r.stderr_output)).length ≤
      newlineCount (concatAll (e.stderr_contains.map fun pattern =>
        if strFindHit pattern r.stderr_output then ""
        else fmtStderrMissing pattern r.stderr_output)) := by
    have hcong : e.stderr_contains.filter (fun p => !(strFindHit p r.stderr_output)) =
        e.stderr_contains.filter fun p =>
          !((if strFindHit p r.stderr_output then ""
             else fmtStderrMissing p r.stderr_output) == "") := by
      apply List.filter_congr
      intro x _
      by_cases hb : strFindHit x r.stderr_output = true
      · simp [hb]
      · simp [hb, fmtStderrMissing_ne_empty]
    rw [hcong]
    apply newlineCount_concatAll_ge
    intro x _ hx
    by_cases hb : strFindHit x r.stderr_output = true
    · rw [if_pos hb] at hx
      exact absurd rfl hx
    · rw [if_neg hb]
      exact one_le_newlineCount_fmtErrMissing x r.stderr_output
  omega

theorem matches_iff_spec_aux (e : ExpectedOutput) (r : ExecutionResult) :
    e.matches r = true ↔ MatchesSpec e r := by
  obtain ⟨o1, o2, l1, l2, oc⟩ := e
  simp only [ExpectedOutput.matches, MatchesSpec, Bool.and_eq_true,
    List.all_eq_true]
  cases oc <;> cases o1 <;> cases o2 <;>
    simp [strFindHit_iff, and_assoc, and_comm, and_left_comm]

theorem fmtExitMismatch_ne_empty (c g : Int) : fmtExitMismatch c g ≠ "" := by
  unfold fmtExitMismatch
  exact append_newline_ne_empty _

theorem fmtStdoutMismatch_ne_empty (a b : String) : fmtStdoutMismatch a b ≠ "" := by
  unfold fmtStdoutMismatch
  exact append_newline_ne_empty _

theorem fmtStderrMismatch_ne_empty (a b : String) : fmtStderrMismatch a b ≠ "" := by
  unfold fmtStderrMismatch
  exact append_newline_ne_empty _

theorem ne_empty_data (s : String) (h : s ≠ "") : s.data ≠ [] :=
  fun hd => h ((string_eq_empty_iff_data s).mpr hd)

theorem infix_of_desc_empty {e : ExpectedOutput} {r : ExecutionResult} {x : String}
    (h : e.get_mismatch_description r = "")
    (hinf : x.data <:+: (e.get_mismatch_description r).data) (hne : x ≠ "") : False := by
  rw [h] at hinf
  exact ne_empty_data x hne (List.infix_nil.mp hinf)

theorem desc_empty_iff (e : ExpectedOutput) (r : ExecutionResult) :
    e.get_mismatch_description r = "" ↔ e.matches r = true := by
  constructor
  · intro h
    rw [matches_iff_spec_aux]
    by_cases hA : ∀ c, e.expected_exit_code = some c → r.exit_code = c
    case neg =>
      push_neg at hA
      obtain ⟨c, hc, hne⟩ := hA
      exact absurd (desc_infix_exit e r c hc hne)
        fun hinf => infix_of_desc_empty h hinf (fmtExitMismatch_ne_empty _ _)
    by_cases hB : ∀ t, e.exact_stdout = some t → r.stdout_output = t
    case neg =>
      push_neg at hB
      obtain ⟨t, ht, hne⟩ := hB
      exact absurd (desc_infix_stdout e r t ht hne)
        fun hinf => infix_of_desc_empty h hinf (fmtStdoutMismatch_ne_empty _ _)
    by_cases hC : ∀ t, e.exact_stderr = some t → r.stderr_output = t
    case neg =>
      push_neg at hC
      obtain ⟨t, ht, hne⟩ := hC
      exact absurd (desc_infix_stderr e r t ht hne)
        fun hinf => infix_of_desc_empty h hinf (fmtStderrMismatch_ne_empty _ _)
    by_cases hD : ∀ p ∈ e.stdout_contains, p.data <:+: r.stdout_output.data
    case neg =>
      push_neg at hD
      obtain ⟨p, hp, hne⟩ := hD
      have hmiss : strFindHit p r.stdout_output = false := by
        cases hb : strFindHit p r.stdout_output
        · rfl
        · exact absurd ((strFindHit_iff p r.stdout_output).mp hb) hne
      exact absurd (desc_infix_out_missing e r p hp hmiss)
        fun hinf => infix_of_desc_empty h hinf (fmtStdoutMissing_ne_empty _ _)
    by_cases hE : ∀ p ∈ e.stderr_contains, p.data <:+: r.stderr_output.data
    case neg =>
      push_neg at hE
      obtain ⟨p, hp, hne⟩ := hE
      have hmiss : strFindHit p r.stderr_output = false := by
        cases hb : strFindHit p r.stderr_output
        · rfl
        · exact absurd ((strFindHit_iff p r.stderr_output).mp hb) hne
      exact absurd (desc_infix_err_missing e r p hp hmiss)
        fun hinf => infix_of_desc_empty h hinf (fmtStderrMissing_ne_empty _ _)
    exact ⟨hA, hB, hC, hD, hE⟩
  · intro h
    obtain ⟨h1, h2, h3, h4, h5⟩ := (matches_iff_spec_aux e r).mp h
    have e1 : (match e.expected_exit_code with
        | some c => if r.exit_code == c then "" else fmtExitMismatch c r.exit_code
        | none => "") = "" := by
      cases hc : e.expected_exit_code with
      | none => rfl
      | some c => simp [h1 c hc]
    have e2 : (match e.exact_stdout with
        | some t => if r.stdout_output == t then "" else fmtStdoutMismatch t r.stdout_output
        | none => "") = "" := by
      cases hc : e.exact_stdout with
      | none => rfl
      | some t => simp [h2 t hc]
    have e3 : (match e.exact_stderr with
        | some t => if r.stderr_output == t then "" else fmtStderrMismatch t r.stderr_output
        | none => "") = "" := by
      cases hc : e.exact_stderr with
      | none => rfl
      | some t => simp [h3 t hc]
    have e4 : concatAll (e.stdout_contains.map fun pattern =>
        if strFindHit pattern r.stdout_output then ""
        else fmtStdoutMissing pattern r.stdout_output) = "" := by
      apply concatAll_eq_empty
      intro x hx
      obtain ⟨p, hp, rfl⟩ := List.mem_map.mp hx
      rw [if_pos ((strFindHit_iff _ _).mpr (h4 p hp))]
    have e5 : concatAll (e.stderr_contains.map fun pattern =>
        if strFindHit pattern r.stderr_output then ""
        else fmtStderrMissing pattern r.stderr_output) = "" := by
      apply concatAll_eq_empty
      intro x hx
      obtain ⟨p, hp, rfl⟩ := List.mem_map.mp hx
      rw [if_pos ((strFindHit_iff _ _).mpr (h5 p hp))]
    unfold ExpectedOutput.get_mismatch_description
    rw [e1, e2, e3, e4, e5]
    rfl

/-- C1: `ExpectedOutput::matches` returns true iff every specified criterion
holds — the expected exit code equals `exit_code`, the exact stdout and
stderr strings equal the captured outputs, and every required stdout and
stderr substring occurs in the corresponding output.  An absent criterion
constrains nothing, and a default-constructed `ExpectedOutput` matches every
result. -/
theorem matches_iff_every_specified_criterion (e : ExpectedOutput)
    (r : ExecutionResult) :
    (e.matches r = true ↔ MatchesSpec e r) ∧
    ExpectedOutput.matches {} r = true :=
  ⟨matches_iff_spec_aux e r, by simp [ExpectedOutput.matches]⟩

/-- C5: `get_mismatch_description` appends, for each specified criterion
that fails, at least one line carrying the criterion's name together with
the expected and the actual value (the full formatted fragment occurs inside
the description); it never stops at the first failure, so the number of
newline-terminated lines is at least the number of violated criteria; and
the description is the empty string exactly when `matches` is true. -/
theorem mismatch_description_complete (e : ExpectedOutput) (r : ExecutionResult) :
    violatedCount e r ≤ newlineCount (e.get_mismatch_description r) ∧
    (e.get_mismatch_description r = "" ↔ e.matches r = true) ∧
    (∀ c, e.expected_exit_code = some c → r.exit_code ≠ c →
      (fmtExitMismatch c r.exit_code).data <:+: (e.get_mismatch_description r).data) ∧
    (∀ t, e.exact_stdout = some t → r.stdout_output ≠ t →
      (fmtStdoutMismatch t r.stdout_output).data <:+: (e.get_mismatch_description r).data) ∧
    (∀ t, e.exact_stderr = some t → r.stderr_output ≠ t →
      (fmtStderrMismatch t r.stderr_output).data <:+: (e.get_mismatch_description r).data) ∧
    (∀ p ∈ e.stdout_contains, strFindHit p r.stdout_output = false →
      (fmtStdoutMissing p r.stdout_output).data <:+: (e.get_mismatch_description r).data) ∧
    (∀ p ∈ e.stderr_contains, strFindHit p r.stderr_output = false →
      (fmtStderrMissing p r.stderr_output).data <:+: (e.get_mismatch_description r).data) :=
  ⟨violatedCount_le_newlineCount e r, desc_empty_iff e r,
   fun c hc hne => desc_infix_exit e r c hc hne,
   fun t ht hne => desc_infix_stdout e r t ht hne,
   fun t ht hne => desc_infix_stderr e r t ht hne,
   fun p hp hm => desc_infix_out_missing e r p hp hm,
   fun p hp hm => desc_infix_err_missing e r p hp hm⟩

/-- C9: `matches` is monotonic in the required-substring lists — for a fixed
result, appending a pattern to `stdout_contains` or to `stderr_contains` can
only turn a match into a non-match, never the reverse: if the extended
expectation matches, so does the original one. -/
theorem matches_monotone_in_contains (e : ExpectedOutput) (r : ExecutionResult)
    (p : String) :
    (ExpectedOutput.matches
        { e with stdout_contains := e.stdout_contains ++ [p] } r = true →
      e.matches r = true) ∧
    (ExpectedOutput.matches
        { e with stderr_contains := e.stderr_contains ++ [p] } r = true →
      e.matches r = true) := by
  simp only [ExpectedOutput.matches, Bool.and_eq_true, List.all_append,
    List.all_cons, List.all_nil, Bool.and_true]
  constructor <;> intro h <;> tauto

/-- C10: `ExecutionResult::succeeded()` returns true iff `exit_code == 0`
and `timed_out == false`; in particular a timed-out run is never reported as
succeeded even when its exit code is 0. -/
theorem succeeded_iff_zero_and_no_timeout (r : ExecutionResult) :
    (r.succeeded = true ↔ (r.exit_code = 0 ∧ r.timed_out = false)) ∧
    (r.timed_out = true → r.succeeded = false) := by
  constructor
  · simp [ExecutionResult.succeeded]
  · intro h
    simp [ExecutionResult.succeeded, h]

/-! ### Engine lemmas -/

theorem selectDeadline_eq (cfg : TestConfig) : selectDeadline cfg = cfg.timeout := by
  unfold selectDeadline
  have h1 : cfg.timeout % 1000 * 1000 / 1000 = cfg.timeout % 1000 :=
    Nat.mul_div_cancel _ (by norm_num)
  rw [h1]
  omega

theorem applyReads_preserves (m : Bool) (cfg : TestConfig)
    (outR errR : Option ReadOutcome) (s : LoopState) :
    (applyReads m cfg outR errR s).waited = s.waited ∧
    (applyReads m cfg outR errR s).killed = s.killed ∧
    (applyReads m cfg outR errR s).timed_out = s.timed_out := by
  simp only [applyReads]
  rcases outR with _ | oc <;> rcases errR with _ | ec <;>
    (try cases oc) <;> (try cases ec) <;>
    split_ifs <;> simp_all

theorem runLoop_timed_out_killed (m : Bool) (cfg : TestConfig)
    (events : List SelectEvent) (s : LoopState)
    (h : s.timed_out = true → s.killed = true) :
    (runLoop m cfg events s).timed_out = true →
    (runLoop m cfg events s).killed = true := by
  induction events generalizing s with
  | nil => simpa [runLoop]
  | cons ev rest ih =>
    cases ev with
    | expired w =>
      simp only [runLoop]
      split_ifs
      · exact h
      · exact h
      · intro _; rfl
    | failed w =>
      simp only [runLoop]
      split_ifs <;> first | exact h | (intro _; rfl)
    | ready w outR errR =>
      simp only [runLoop]
      split_ifs
      · exact h
      · exact h
      · apply ih
        have hp := applyReads_preserves m cfg outR errR
          { s with waited := s.waited + eventWait (SelectEvent.ready w outR errR),
                   selects := s.selects + 1 }
        intro ht
        rw [hp.2.2] at ht
        rw [hp.2.1]
        exact h ht

theorem runLoop_waited_le (m : Bool) (cfg : TestConfig)
    (events : List SelectEvent) (s : LoopState) :
    events.all (validEvent cfg) = true →
    (runLoop m cfg events s).waited ≤ s.waited + events.length * cfg.timeout := by
  induction events generalizing s with
  | nil =>
    intro _
    simp [runLoop]
  | cons ev rest ih =>
    intro hv
    rw [List.all_cons, Bool.and_eq_true] at hv
    obtain ⟨hev, hrest⟩ := hv
    have hd := selectDeadline_eq cfg
    have hwait : eventWait ev ≤ cfg.timeout := by
      cases ev with
      | expired w =>
        simp only [validEvent, beq_iff_eq] at hev
        simp [eventWait, hev, hd.symm]
      | failed w =>
        simp only [validEvent, decide_eq_true_eq] at hev
        rw [eventWait, hd.symm]
        exact hev
      | ready w outR errR =>
        simp only [validEvent, decide_eq_true_eq] at hev
        rw [eventWait, hd.symm]
        exact hev
    have hmul : cfg.timeout ≤ (rest.length + 1) * cfg.timeout :=
      Nat.le_mul_of_pos_left _ (Nat.succ_pos _)
    have hlen : (ev :: rest).length = rest.length + 1 := rfl
    cases ev with
    | expired w =>
      simp only [runLoop, eventWait] at hwait ⊢
      split_ifs <;> simp only [hlen] <;> omega
    | failed w =>
      simp only [runLoop, eventWait] at hwait ⊢
      split_ifs <;> simp only [hlen] <;> omega
    | ready w outR errR =>
      simp only [runLoop, eventWait] at hwait ⊢
      split_ifs with h1 h2
      · simp only [hlen]; omega
      · simp only [hlen]; omega
      · have hstep := ih (applyReads m cfg outR errR
          { s with waited := s.waited + w, selects := s.selects + 1 }) hrest
        have hf : (applyReads m cfg outR errR
            { s with waited := s.waited + w, selects := s.selects + 1 }).waited =
            s.waited + w :=
          (applyReads_preserves m cfg outR errR
            { s with waited := s.waited + w, selects := s.selects + 1 }).1
        simp only [hlen]
        have hexp : (rest.length + 1) * cfg.timeout =
            rest.length * cfg.timeout + cfg.timeout := by ring
        omega

theorem decode_reap_killed (st : ChildStatus) :
    decode_status (reapStatus true st) = 137 := by
  simp [reapStatus, decode_status, SIGKILL]

theorem execute_exit_code_decode (runner : AsmTestRunner) (env : ExecEnv)
    (res : ExecutionResult) (killed : Bool)
    (h : runner.execute_process env = .ok (res, killed)) :
    res.exit_code = decode_status (reapStatus killed (effective_status runner env)) := by
  unfold AsmTestRunner.execute_process AsmTestRunner.execute_with_strace at h
  by_cases hu : runner.config.use_strace = true
  · rw [if_pos hu] at h
    by_cases hpk : (!env.pipe_ok) = true
    · rw [if_pos hpk] at h
      exact absurd h (by simp)
    · rw [if_neg hpk] at h
      by_cases hfk : (!env.fork_ok) = true
      · rw [if_pos hfk] at h
        exact absurd h (by simp)
      · rw [if_neg hfk] at h
        injection h with h1
        simp only [finishRun, Prod.mk.injEq] at h1
        obtain ⟨hres, hkill⟩ := h1
        subst hres
        subst hkill
        have heff : (if env.strace_on_path then env.natural_status
            else ChildStatus.exited 127) = effective_status runner env := by
          unfold effective_status
          cases hsp : env.strace_on_path <;> simp [hu, hsp]
        rw [← heff]
  · rw [if_neg hu] at h
    by_cases hpk : (!env.pipe_ok) = true
    · rw [if_pos hpk] at h
      exact absurd h (by simp)
    · rw [if_neg hpk] at h
      by_cases hfk : (!env.fork_ok) = true
      · rw [if_pos hfk] at h
        exact absurd h (by simp)
      · rw [if_neg hfk] at h
        injection h with h1
        simp only [finishRun, Prod.mk.injEq] at h1
        obtain ⟨hres, hkill⟩ := h1
        subst hres
        subst hkill
        have hu2 : runner.config.use_strace = false := Bool.eq_false_iff.mpr hu
        have heff : env.natural_status = effective_status runner env := by
          unfold effective_status
          simp [hu2]
        rw [← heff]

/-- C2: whenever a completed execution (plain or traced path) reports
`timed_out = true`, the runner forcibly killed the child with SIGKILL, and
`exit_code` carries the runner-kill encoding 128 + 9 = 137, not a value the
child chose. -/
theorem timed_out_implies_runner_kill (runner : AsmTestRunner) (env : ExecEnv)
    (res : ExecutionResult) (killed : Bool)
    (h : runner.execute_process env = .ok (res, killed))
    (ht : res.timed_out = true) :
    killed = true ∧ res.exit_code = 137 := by
  unfold AsmTestRunner.execute_process AsmTestRunner.execute_with_strace at h
  by_cases hu : runner.config.use_strace = true
  · rw [if_pos hu] at h
    by_cases hpk : (!env.pipe_ok) = true
    · rw [if_pos hpk] at h
      exact absurd h (by simp)
    · rw [if_neg hpk] at h
      by_cases hfk : (!env.fork_ok) = true
      · rw [if_pos hfk] at h
        exact absurd h (by simp)
      · rw [if_neg hfk] at h
        injection h with h1
        simp only [finishRun, Prod.mk.injEq] at h1
        obtain ⟨hres, hkill⟩ := h1
        subst hres
        subst hkill
        have hk : (runLoop true runner.config env.events {}).killed = true := by
          apply runLoop_timed_out_killed
          · intro hh
            exact absurd hh (by decide)
          · exact ht
        refine ⟨hk, ?_⟩
        show decode_status (reapStatus
          (runLoop true runner.config env.events {}).killed _) = 137
        rw [hk]
        exact decode_reap_killed _
  · rw [if_neg hu] at h
    by_cases hpk : (!env.pipe_ok) = true
    · rw [if_pos hpk] at h
      exact absurd h (by simp)
    · rw [if_neg hpk] at h
      by_cases hfk : (!env.fork_ok) = true
      · rw [if_pos hfk] at h
        exact absurd h (by simp)
      · rw [if_neg hfk] at h
        injection h with h1
        simp only [finishRun, Prod.mk.injEq] at h1
        obtain ⟨hres, hkill⟩ := h1
        subst hres
        subst hkill
        have hk : (runLoop false runner.config env.events {}).killed = true := by
          apply runLoop_timed_out_killed
          · intro hh
            exact absurd hh (by decide)
          · exact ht
        refine ⟨hk, ?_⟩
        show decode_status (reapStatus
          (runLoop false runner.config env.events {}).killed _) = 137
        rw [hk]
        exact decode_reap_killed _

theorem timed_out_implies_runner_kill_witness :
    (true : Bool) = true ∧
    ({ exit_code := 137, timed_out := true } : ExecutionResult).exit_code = 137 :=
  timed_out_implies_runner_kill
    { executable_path := "/bin/prog" }
    { events := [.expired 5000] }
    { exit_code := 137, timed_out := true }
    true
    (by decide)
    (by decide)

/-- C3: terminal-status decoding — a normal exit yields the child's exit
value as the operating system reports it (its low 8 bits), termination by
signal N yields 128 + N, the runner's own SIGKILL therefore yields 137,
every completed call's `exit_code` is exactly this decoding of the reaped
status, and two runs (one runner-killed on expiry, one naturally dying of
signal 9) both show 137 while only `timed_out` tells them apart. -/
theorem exit_status_decoding (runner : AsmTestRunner) (env : ExecEnv)
    (res : ExecutionResult) (killed : Bool) :
    (∀ code, decode_status (.exited code) = ((code % 256 : Nat) : Int)) ∧
    (∀ sig, decode_status (.signaled sig) = 128 + (sig : Int)) ∧
    decode_status (.signaled SIGKILL) = 137 ∧
    (runner.execute_process env = .ok (res, killed) →
      res.exit_code = decode_status (reapStatus killed (effective_status runner env))) ∧
    (({ executable_path := "/bin/prog" } : AsmTestRunner).execute_process
        { events := [.expired 5000] }).map
        (fun rk => (rk.1.exit_code, rk.1.timed_out, rk.2)) = .ok (137, true, true) ∧
    (({ executable_path := "/bin/prog" } : AsmTestRunner).execute_process
        { events := [.ready 0 (some .eof) (some .eof)],
          natural_status := .signaled 9 }).map
        (fun rk => (rk.1.exit_code, rk.1.timed_out, rk.2)) = .ok (137, false, false) :=
  ⟨fun _ => rfl, fun _ => rfl, by decide,
   execute_exit_code_decode runner env res killed, by decide, by decide⟩

/-- C4 counterexample: a trace of two select outcomes, each waiting the
full 100 ms deadline the code passes (so each is valid for the code's
per-iteration `timeval`), is consumed without any timeout being reported,
yet the loop's total blocked time is 200 ms — more than the configured
100 ms timeout.  The per-iteration deadline is not aware of time already
spent, and no single wall-clock budget bounds the whole read loop. -/
theorem select_budget_exceeds_timeout_counterexample :
    ([SelectEvent.ready 100 (some (.data "a")) none,
      SelectEvent.ready 100 (some .eof) none].all
        (validEvent { timeout := 100, capture_stderr := false }) = true) ∧
    (runLoop false { timeout := 100, capture_stderr := false }
        [SelectEvent.ready 100 (some (.data "a")) none,
         SelectEvent.ready 100 (some .eof) none] {}).timed_out = false ∧
    (runLoop false { timeout := 100, capture_stderr := false }
        [SelectEvent.ready 100 (some (.data "a")) none,
         SelectEvent.ready 100 (some .eof) none] {}).waited = 200 ∧
    ¬((runLoop false { timeout := 100, capture_stderr := false }
        [SelectEvent.ready 100 (some (.data "a")) none,
         SelectEvent.ready 100 (some .eof) none] {}).waited ≤ (100 : Nat)) := by
  decide

/-- C4 (amended): the deadline handed to select(2) is rebuilt identically
on every iteration from the configured timeout alone — it equals the full
timeout, with no awareness of time already spent — so each individual wait
is bounded by the configured timeout and the loop's total blocked time is
bounded only by (number of events) x timeout, not by the timeout itself. -/
theorem select_deadline_full_timeout_each_iteration (m : Bool)
    (cfg : TestConfig) (events : List SelectEvent) (s : LoopState)
    (hv : events.all (validEvent cfg) = true) :
    selectDeadline cfg = cfg.timeout ∧
    (runLoop m cfg events s).waited ≤ s.waited + events.length * cfg.timeout :=
  ⟨selectDeadline_eq cfg, runLoop_waited_le m cfg events s hv⟩

theorem select_deadline_full_timeout_witness :
    selectDeadline { timeout := 100, capture_stderr := false } = 100 ∧
    (runLoop false { timeout := 100, capture_stderr := false }
        [SelectEvent.ready 100 (some (.data "a")) none,
         SelectEvent.ready 100 (some .eof) none] {}).waited ≤ 0 + 2 * 100 :=
  select_deadline_full_timeout_each_iteration false
    { timeout := 100, capture_stderr := false }
    [SelectEvent.ready 100 (some (.data "a")) none,
     SelectEvent.ready 100 (some .eof) none] {} (by decide)

/-- C6: constructing a runner fails with a setup error iff the executable
path does not exist, or is not a regular file, or lacks execute permission;
on success the runner binds exactly the given path, dialect tag and
configuration.  The checks live only in the constructor — `execute_process`
takes no file-system information at all, so they never recur per call. -/
theorem construct_setup_error_iff (path : String) (dialect : AsmDialect)
    (cfg : TestConfig) (st : FileStat) :
    (exceptIsError (AsmTestRunner.construct path dialect cfg st) = true ↔
      st.fileExists = false ∨ st.isRegularFile = false ∨
        st.isExecutable = false) ∧
    (∀ runner, AsmTestRunner.construct path dialect cfg st = .ok runner →
      runner = { executable_path := path, dialect := dialect, config := cfg }) := by
  unfold AsmTestRunner.construct
  constructor
  · split_ifs with h1 h2 h3 <;> simp_all [exceptIsError]
  · intro runner h
    split_ifs at h
    simp_all

/-- C7 counterexample: with the trace utility unresolvable on the search
path, the traced execute call still returns an ordinary `ExecutionResult`
— the child's execvp fails and exits 127, which the parent decodes like
any other exit — instead of surfacing a SpawnError to the caller. -/
theorem strace_missing_not_spawn_error :
    ({ executable_path := "/x", config := { use_strace := true } } :
        AsmTestRunner).execute_process
      { strace_on_path := false,
        events := [.ready 0 (some .eof) (some .eof)] } =
    .ok ({ exit_code := 127, stdout_output := "", stderr_output := "",
           execution_time := 0, timed_out := false }, false) := by
  decide

/-- C7 (amended): when pipes and fork succeed but the trace utility is not
resolvable on the search path, the traced execute call produces an
`ExecutionResult` — not a SpawnError — and, unless the runner killed the
child, its `exit_code` is 127, the execvp-failure exit of the child. -/
theorem strace_missing_gives_result_127 (runner : AsmTestRunner) (env : ExecEnv)
    (hpk : env.pipe_ok = true) (hfk : env.fork_ok = true)
    (hsp : env.strace_on_path = false) :
    ∃ res, runner.execute_with_strace env =
        .ok (res, (runLoop true runner.config env.events {}).killed) ∧
      ((runLoop true runner.config env.events {}).killed = false →
        res.exit_code = 127) := by
  unfold AsmTestRunner.execute_with_strace
  rw [if_neg (by simp [hpk]), if_neg (by simp [hfk]), if_neg (by simp [hsp])]
  refine ⟨_, rfl, ?_⟩
  intro hk
  show decode_status (reapStatus
    (runLoop true runner.config env.events {}).killed (ChildStatus.exited 127)) = 127
  rw [hk]
  simp [reapStatus, decode_status]

theorem strace_missing_gives_result_127_witness :
    ∃ res, ({ executable_path := "/y", config := { use_strace := true } } :
        AsmTestRunner).execute_with_strace
        { strace_on_path := false,
          events := [.ready 0 (some .eof) (some .eof)] } =
        .ok (res, false) ∧
      (false = false → res.exit_code = 127) :=
  strace_missing_gives_result_127
    { executable_path := "/y", config := { use_strace := true } }
    { strace_on_path := false, events := [.ready 0 (some .eof) (some .eof)] }
    rfl rfl rfl

theorem foldl_push_append (l init : List String) :
    l.foldl (fun acc x => acc ++ [x]) init = init ++ l := by
  induction l generalizing init with
  | nil => simp
  | cons a t ih => simp [List.foldl_cons, ih]

/-- C8: traced execution spawns exactly the command line
`[trace-utility, ...configured-trace-flags, executable-path, ...args]` in
that order — the runner's executable path and the caller's arguments are
preserved unchanged after the flags — and the trace utility is resolved
via the standard executable search path (execvp on the bare name), not an
absolute path. -/
theorem strace_command_line (cfg : TestConfig) (path : String)
    (args : List String) :
    build_strace_args cfg path args =
      ["strace"] ++ cfg.strace_options ++ [path] ++ args ∧
    strace_spawn_method = SpawnMethod.execBySearch "strace" := by
  constructor
  · simp only [build_strace_args]
    rw [foldl_push_append]
  · rfl

end x86_asm_test
